import Mathlib

/-!
Verification of the tier pricing resolver described by the
types-for-pricing-scripts repository.  The repository ships TypeScript
declaration files only; the helper functions `FindTier`,
`InterpolatePrice` and `GetAttributePriceAdjustment` are implemented by
the hosting pricing engine, so their behaviour is modelled here from the
specification that accompanies the declarations.  Numbers are modelled
as rationals.
-/

namespace Pricing

/-- A pricing tier, as declared in src/v1/Core/Tier.d.ts: a quantity
threshold, a unit price, and a customer role system name that is the
empty string when the tier applies to every role. -/
structure Tier where
  Quantity : ℚ
  Price : ℚ
  CustomerRole : String
deriving DecidableEq, Repr

/-- Modelled from the spec: the best-match-from-below selection used by
the missing `FindTier` implementation (spec 4.1 steps 2-4).  Among the
tiers of the given list whose Quantity is at most the requested
quantity, pick the one with the greatest Quantity, keeping the first
occurrence on equal quantities; none when no tier qualifies. -/
def bestTier (q : ℚ) : List Tier → Option Tier
  | [] => none
  | t :: rest =>
    if t.Quantity ≤ q then
      match bestTier q rest with
      | none => some t
      | some u => if t.Quantity < u.Quantity then some u else some t
    else bestTier q rest

/-- Modelled from the spec: the role-specific partition for one role
(spec 4.1 step 1) of the missing `FindTier` implementation — the tiers
whose CustomerRole is non-empty and equals the given role. -/
def roleTiers (tiers : List Tier) (r : String) : List Tier :=
  tiers.filter (fun t => !(t.CustomerRole == "") && t.CustomerRole == r)

/-- Modelled from the spec: role iteration of the missing `FindTier`
implementation (spec 4.1 steps 3 and 5) — walk the caller-supplied
roles in order and return the first role whose partition yields a
best match. -/
def roleSpecificBest (q : ℚ) (tiers : List Tier) : List String → Option Tier
  | [] => none
  | r :: rs =>
    match bestTier q (roleTiers tiers r) with
    | some t => some t
    | none => roleSpecificBest q tiers rs

/-- Modelled from the spec: the role-agnostic partition used by the
missing `FindTier` implementation (spec 4.1 step 1) — the tiers whose
CustomerRole is empty. -/
def agnosticTiers (tiers : List Tier) : List Tier :=
  tiers.filter (fun t => t.CustomerRole == "")

/-- Modelled from the spec: the missing `FindTier` implementation
declared in src/v1/Core/HelperMethods.d.ts (spec 4.1).  A role-specific
match wins; otherwise the role-agnostic partition is consulted; the
result is none when no tier qualifies. -/
def FindTier (q : ℚ) (tiers : List Tier) (roles : List String) : Option Tier :=
  match roleSpecificBest q tiers roles with
  | some t => some t
  | none => bestTier q (agnosticTiers tiers)

/-- The quantity ordering on tiers used to sort a tier list before
interpolation (spec 4.2 step 1). -/
def tierLE : Tier → Tier → Prop := fun a b => a.Quantity ≤ b.Quantity

instance : DecidableRel tierLE := fun a b =>
  inferInstanceAs (Decidable (a.Quantity ≤ b.Quantity))

instance : IsTotal Tier tierLE := ⟨fun a b => le_total a.Quantity b.Quantity⟩

instance : IsTrans Tier tierLE := ⟨fun _ _ _ hab hbc => le_trans hab hbc⟩

/-- The strict quantity ordering on tiers; the de-duplicated sorted
tier list is strictly increasing under it. -/
def tierLT : Tier → Tier → Prop := fun a b => a.Quantity < b.Quantity

instance : IsTrans Tier tierLT := ⟨fun _ _ _ hab hbc => lt_trans hab hbc⟩

/-- Modelled from the spec: the ascending sort by quantity performed by
the missing `InterpolatePrice` implementation (spec 4.2 step 1); a
stable insertion sort. -/
def sortTiers (tiers : List Tier) : List Tier :=
  tiers.insertionSort tierLE

/-- Modelled from the spec: the duplicate-removal walk of the missing
`InterpolatePrice` implementation, carrying the last kept tier — an
entry whose quantity equals the last kept quantity is dropped, any
other entry is kept and becomes the new reference (spec 4.2 numeric
semantics, keep the first occurrence). -/
def dedupFrom (a : Tier) : List Tier → List Tier
  | [] => []
  | b :: rest =>
    if a.Quantity = b.Quantity then dedupFrom a rest
    else b :: dedupFrom b rest

/-- Modelled from the spec: removal of duplicate-quantity tiers,
keeping the first occurrence, before bracketing (spec 4.2 numeric
semantics).  Each entry is compared with the last kept entry; on a list
sorted by quantity this removes every duplicate quantity. -/
def dedupTiers : List Tier → List Tier
  | [] => []
  | a :: rest => a :: dedupFrom a rest

/-- Modelled from the spec: the clamp-and-bracket walk of the missing
`InterpolatePrice` implementation over an already sorted, de-duplicated
tier list (spec 4.2 steps 2-6).  A quantity at most the first
breakpoint gets the first price; a quantity below the next breakpoint
is interpolated linearly between the bracketing pair; otherwise the
walk advances, so a quantity beyond every breakpoint gets the last
price. -/
def interpolateSorted (q : ℚ) : List Tier → Option ℚ
  | [] => none
  | [t] => some t.Price
  | a :: b :: rest =>
    if q ≤ a.Quantity then some a.Price
    else if q < b.Quantity then
      some (a.Price +
        (q - a.Quantity) / (b.Quantity - a.Quantity) * (b.Price - a.Price))
    else interpolateSorted q (b :: rest)

/-- Modelled from the spec: the walk of `interpolateSorted` with the
division-by-zero branch made explicit — the outer none is returned
exactly when a taken bracketing branch would divide by a zero quantity
span (spec 4.2 numeric semantics). -/
def interpolateSortedChecked (q : ℚ) : List Tier → Option (Option ℚ)
  | [] => some none
  | [t] => some (some t.Price)
  | a :: b :: rest =>
    if q ≤ a.Quantity then some (some a.Price)
    else if q < b.Quantity then
      if b.Quantity - a.Quantity = 0 then none
      else some (some (a.Price +
        (q - a.Quantity) / (b.Quantity - a.Quantity) * (b.Price - a.Price)))
    else interpolateSortedChecked q (b :: rest)

/-- Modelled from the spec: the missing `InterpolatePrice`
implementation declared in src/v1/Core/HelperMethods.d.ts (spec 4.2):
sort the tiers by quantity, de-duplicate equal quantities keeping the
first occurrence, then clamp below and above the range and interpolate
linearly between the bracketing pair; none on an empty tier list. -/
def InterpolatePrice (q : ℚ) (tiers : List Tier) : Option ℚ :=
  interpolateSorted q (dedupTiers (sortTiers tiers))

/-- One selectable option of an attribute, as declared in
src/v1/Core/Attribute.d.ts.  The field named Type in the source is not
modelled because the resolver never reads it. -/
structure AttributeValue where
  Value : String
  Id : String
  PriceAdjustment : ℚ
  WeightAdjustment : ℚ
  LengthAdjustment : ℚ
  WidthAdjustment : ℚ
  HeightAdjustment : ℚ
  PriceAdjustmentIsPercentage : Bool
  UseTierPriceAdjustment : Bool
  TierPriceAdjustments : List Tier
deriving DecidableEq, Repr

/-- A configurable product option, as declared in
src/v1/Core/Attribute.d.ts; Value is the currently selected value
string, empty when nothing is selected.  Aggregate adjustment fields of
the source that merely mirror the selected value are not modelled. -/
structure Attribute where
  Key : String
  Prompt : String
  IsRequired : Bool
  Value : String
  Id : ℚ
  Values : List AttributeValue
deriving DecidableEq, Repr

/-- The AttributeValue currently selected on an attribute: none when
the attribute's value string is empty, otherwise the first entry of
Values whose value string matches it. -/
def selectedValue (a : Attribute) : Option AttributeValue :=
  if a.Value = "" then none
  else a.Values.find? (fun v => v.Value == a.Value)

/-- Modelled from the spec: the contribution of one selected
AttributeValue inside the missing `GetAttributePriceAdjustment`
implementation (spec 4.3 steps 1-2).  A tiered adjustment resolves
through `FindTier` and contributes the matched tier price, or zero on
no match; a flat percentage adjustment contributes
basePrice * (adjustment / 100); a flat absolute adjustment contributes
itself. -/
def valueContribution (q : ℚ) (roles : List String) (basePrice : ℚ)
    (v : AttributeValue) : ℚ :=
  if v.UseTierPriceAdjustment then
    match FindTier q v.TierPriceAdjustments roles with
    | some t => t.Price
    | none => 0
  else if v.PriceAdjustmentIsPercentage then
    basePrice * (v.PriceAdjustment / 100)
  else v.PriceAdjustment

/-- Modelled from the spec: the contribution of one attribute inside
the missing `GetAttributePriceAdjustment` implementation — zero when
no value is selected (spec 4.3 step 3). -/
def attrContribution (q : ℚ) (roles : List String) (basePrice : ℚ)
    (a : Attribute) : ℚ :=
  match selectedValue a with
  | some v => valueContribution q roles basePrice v
  | none => 0

/-- Modelled from the spec: the missing `GetAttributePriceAdjustment`
implementation declared in src/v1/Core/HelperMethods.d.ts (spec 4.3),
with the ambient inputs made explicit — the sum over the attribute
collection of each selected value's contribution. -/
def GetAttributePriceAdjustment (q : ℚ) (roles : List String)
    (basePrice : ℚ) (attrs : List Attribute) : ℚ :=
  (attrs.map (attrContribution q roles basePrice)).sum

/-- The slice of the ambient Item snapshot read by pricing scripts, as
declared in src/v1/Core/Item.d.ts (the fields the resolver can
reach). -/
structure ItemState where
  Price : ℚ
  OldPrice : ℚ
  Quantity : ℚ
  Attributes : List Attribute
  CustomerRoles : List String
deriving DecidableEq, Repr

/-- The ambient Customer snapshot, as declared in
src/v1/Core/Customer.d.ts. -/
structure CustomerState where
  Email : String
  CustomerRoles : List String
  Department : String
  DiscountCouponCode : String
deriving DecidableEq, Repr

/-- The ambient state visible to one pricing-script evaluation: the
Item and Customer global snapshots. -/
structure ScriptState where
  item : ItemState
  customer : CustomerState
deriving DecidableEq, Repr

/-- Modelled from the spec: `GetAttributePriceAdjustment` as exposed to
scripts — explicit quantity and optional roles, with the attribute
collection and base price read from the ambient Item snapshot and the
roles falling back to the ambient Customer roles when omitted
(src/v1/Helpers/Helpers.d.ts lines 123-136, spec 4.3). -/
def GetAttributePriceAdjustmentAmbient (st : ScriptState) (q : ℚ)
    (roles : Option (List String)) : ℚ :=
  GetAttributePriceAdjustment q (roles.getD st.customer.CustomerRoles)
    st.item.Price st.item.Attributes

/-- A tier as it arrives from script input before validation: either
numeric field may be missing (src/v1/Core/Tier.d.ts declares both as
required, so a missing one is malformed input). -/
structure RawTier where
  Quantity : Option ℚ
  Price : Option ℚ
  CustomerRole : String
deriving DecidableEq, Repr

/-- A raw tier entry is well formed when both its Quantity and its
Price are present. -/
def validTier (t : RawTier) : Bool :=
  t.Quantity.isSome && t.Price.isSome

/-- A well-formed raw tier converts to a tier; a malformed one does
not. -/
def toTier : RawTier → Option Tier
  | ⟨some q, some p, r⟩ => some (Tier.mk q p r)
  | _ => none

/-- Modelled from the spec: the InvalidArgument error kind of the
failure semantics (spec 7, error taxonomy). -/
inductive PricingError where
  | InvalidArgument (message : String)
deriving DecidableEq, Repr

/-- Whether a checked computation failed with an InvalidArgument
error. -/
def isInvalidArg {α : Type} : Except PricingError α → Bool
  | .error (.InvalidArgument _) => true
  | .ok _ => false

/-- Modelled from the spec: fail-fast validation of a tier list — the
first tier entry missing Quantity or Price raises a descriptive
InvalidArgument error (spec 4.3 failure semantics, spec 7). -/
def validateTiers : List RawTier → Except PricingError (List Tier)
  | [] => .ok []
  | t :: rest =>
    match toTier t with
    | none => .error (.InvalidArgument
        "tier entry is missing its Quantity or Price field")
    | some v =>
      match validateTiers rest with
      | .ok l => .ok (v :: l)
      | .error e => .error e

/-- Modelled from the spec: `FindTier` with the fail-fast input checks
of the failure semantics — a negative quantity or a malformed tier
entry raises InvalidArgument, any valid input resolves through the
tier selection (spec 4.3 failure semantics, spec 7). -/
def checkedFindTier (q : ℚ) (ts : List RawTier) (roles : List String) :
    Except PricingError (Option Tier) :=
  if q < 0 then .error (.InvalidArgument "negative quantity")
  else
    match validateTiers ts with
    | .error e => .error e
    | .ok l => .ok (FindTier q l roles)

/-- Modelled from the spec: `InterpolatePrice` with the fail-fast input
checks of the failure semantics — a negative quantity, a malformed tier
entry, or an empty tier list raises InvalidArgument (spec 4.2 edge
cases, spec 4.3 failure semantics, spec 7). -/
def checkedInterpolatePrice (q : ℚ) (ts : List RawTier) :
    Except PricingError ℚ :=
  if q < 0 then .error (.InvalidArgument "negative quantity")
  else
    match validateTiers ts with
    | .error e => .error e
    | .ok l =>
      match InterpolatePrice q l with
      | some p => .ok p
      | none => .error (.InvalidArgument "empty tier list")

/-- An attribute value as it arrives before validation: its tier
adjustments are raw tiers. -/
structure RawAttributeValue where
  Value : String
  Id : String
  PriceAdjustment : ℚ
  WeightAdjustment : ℚ
  LengthAdjustment : ℚ
  WidthAdjustment : ℚ
  HeightAdjustment : ℚ
  PriceAdjustmentIsPercentage : Bool
  UseTierPriceAdjustment : Bool
  TierPriceAdjustments : List RawTier
deriving DecidableEq, Repr

/-- An attribute as it arrives before validation. -/
structure RawAttribute where
  Key : String
  Prompt : String
  IsRequired : Bool
  Value : String
  Id : ℚ
  Values : List RawAttributeValue
deriving DecidableEq, Repr

/-- A raw attribute value is well formed when every entry of its tier
adjustment list is well formed. -/
def validValue (v : RawAttributeValue) : Bool :=
  v.TierPriceAdjustments.all validTier

/-- A raw attribute is well formed when all of its values are. -/
def validAttr (a : RawAttribute) : Bool :=
  a.Values.all validValue

/-- Modelled from the spec: fail-fast validation of one attribute
value, validating its tier adjustment list (spec 4.3 failure
semantics). -/
def validateValue (v : RawAttributeValue) :
    Except PricingError AttributeValue :=
  match validateTiers v.TierPriceAdjustments with
  | .error e => .error e
  | .ok l => .ok (AttributeValue.mk v.Value v.Id v.PriceAdjustment
      v.WeightAdjustment v.LengthAdjustment v.WidthAdjustment
      v.HeightAdjustment v.PriceAdjustmentIsPercentage
      v.UseTierPriceAdjustment l)

/-- Modelled from the spec: fail-fast validation of a list of attribute
values (spec 4.3 failure semantics). -/
def validateValues : List RawAttributeValue →
    Except PricingError (List AttributeValue)
  | [] => .ok []
  | v :: rest =>
    match validateValue v with
    | .error e => .error e
    | .ok w =>
      match validateValues rest with
      | .ok l => .ok (w :: l)
      | .error e => .error e

/-- Modelled from the spec: fail-fast validation of an attribute list
(spec 4.3 failure semantics). -/
def validateAttrs : List RawAttribute →
    Except PricingError (List Attribute)
  | [] => .ok []
  | a :: rest =>
    match validateValues a.Values with
    | .error e => .error e
    | .ok vs =>
      match validateAttrs rest with
      | .ok l => .ok (Attribute.mk a.Key a.Prompt a.IsRequired a.Value
          a.Id vs :: l)
      | .error e => .error e

/-- Modelled from the spec: `GetAttributePriceAdjustment` with the
fail-fast input checks of the failure semantics — a negative quantity
or a malformed tier entry inside any attribute value raises
InvalidArgument (spec 4.3 failure semantics, spec 7). -/
def checkedGetAttributePriceAdjustment (q : ℚ) (roles : List String)
    (basePrice : ℚ) (attrs : List RawAttribute) :
    Except PricingError ℚ :=
  if q < 0 then .error (.InvalidArgument "negative quantity")
  else
    match validateAttrs attrs with
    | .error e => .error e
    | .ok l => .ok (GetAttributePriceAdjustment q roles basePrice l)

/-! Basic facts about the best-match-from-below selection. -/

theorem bestTier_eq_none_iff (q : ℚ) (l : List Tier) :
    bestTier q l = none ↔ ∀ t ∈ l, q < t.Quantity := by
  induction l with
  | nil => simp [bestTier]
  | cons t rest ih =>
    by_cases h : t.Quantity ≤ q
    · cases hb : bestTier q rest with
      | none => simp [bestTier, h, hb, not_lt.mpr h]
      | some u =>
        by_cases hu : t.Quantity < u.Quantity <;>
          simp [bestTier, h, hb, hu, not_lt.mpr h]
    · simp [bestTier, h, ih, not_le.mp h]

theorem bestTier_mem_le {q : ℚ} {l : List Tier} {u : Tier}
    (h : bestTier q l = some u) : u ∈ l ∧ u.Quantity ≤ q := by
  induction l with
  | nil => simp [bestTier] at h
  | cons t rest ih =>
    by_cases ht : t.Quantity ≤ q
    · cases hb : bestTier q rest with
      | none =>
        simp [bestTier, ht, hb] at h
        subst h
        exact ⟨List.mem_cons_self _ _, ht⟩
      | some w =>
        by_cases hw : t.Quantity < w.Quantity
        · simp [bestTier, ht, hb, hw] at h
          subst h
          rcases ih hb with ⟨hm, hle⟩
          exact ⟨List.mem_cons_of_mem _ hm, hle⟩
        · simp [bestTier, ht, hb, hw] at h
          subst h
          exact ⟨List.mem_cons_self _ _, ht⟩
    · simp only [bestTier, if_neg ht] at h
      rcases ih h with ⟨hm, hle⟩
      exact ⟨List.mem_cons_of_mem _ hm, hle⟩

theorem bestTier_max_aux (q : ℚ) (l : List Tier) :
    ∀ u, bestTier q l = some u →
      ∀ x ∈ l, x.Quantity ≤ q → x.Quantity ≤ u.Quantity := by
  induction l with
  | nil => simp
  | cons t rest ih =>
    intro u h x hx hxq
    by_cases ht : t.Quantity ≤ q
    · cases hb : bestTier q rest with
      | none =>
        simp [bestTier, ht, hb] at h
        subst h
        rcases List.mem_cons.mp hx with hx | hx
        · exact hx ▸ le_refl _
        · exact absurd hxq (not_le.mpr ((bestTier_eq_none_iff q rest).mp hb x hx))
      | some w =>
        by_cases hw : t.Quantity < w.Quantity
        · simp [bestTier, ht, hb, hw] at h
          subst h
          rcases List.mem_cons.mp hx with hx | hx
          · exact hx ▸ le_of_lt hw
          · exact ih w hb x hx hxq
        · simp [bestTier, ht, hb, hw] at h
          subst h
          rcases List.mem_cons.mp hx with hx | hx
          · exact hx ▸ le_refl _
          · exact le_trans (ih w hb x hx hxq) (not_lt.mp hw)
    · simp only [bestTier, if_neg ht] at h
      rcases List.mem_cons.mp hx with hx | hx
      · exact absurd hxq (hx ▸ ht)
      · exact ih u h x hx hxq

theorem bestTier_max {q : ℚ} {l : List Tier} {u : Tier}
    (h : bestTier q l = some u) :
    ∀ x ∈ l, x.Quantity ≤ q → x.Quantity ≤ u.Quantity :=
  bestTier_max_aux q l u h

theorem bestTier_isSome {q : ℚ} {l : List Tier}
    (h : ∃ t ∈ l, t.Quantity ≤ q) : ∃ u, bestTier q l = some u := by
  cases hb : bestTier q l with
  | none =>
    rcases h with ⟨t, ht, htq⟩
    exact absurd htq (not_le.mpr ((bestTier_eq_none_iff q l).mp hb t ht))
  | some u => exact ⟨u, rfl⟩

/-! Facts about the two partitions of a tier list. -/

theorem mem_roleTiers {tiers : List Tier} {r : String} {x : Tier} :
    x ∈ roleTiers tiers r ↔
      x ∈ tiers ∧ ¬x.CustomerRole = "" ∧ x.CustomerRole = r := by
  simp [roleTiers, List.mem_filter]

theorem mem_agnosticTiers {tiers : List Tier} {x : Tier} :
    x ∈ agnosticTiers tiers ↔ x ∈ tiers ∧ x.CustomerRole = "" := by
  simp [agnosticTiers, List.mem_filter]

theorem roleTiers_of_agnostic {tiers : List Tier}
    (hag : ∀ t ∈ tiers, t.CustomerRole = "") (r : String) :
    roleTiers tiers r = [] := by
  apply List.eq_nil_iff_forall_not_mem.mpr
  intro x hx
  exact (mem_roleTiers.mp hx).2.1 (hag x (mem_roleTiers.mp hx).1)

theorem agnosticTiers_of_agnostic {tiers : List Tier}
    (hag : ∀ t ∈ tiers, t.CustomerRole = "") :
    agnosticTiers tiers = tiers := by
  apply List.filter_eq_self.mpr
  intro a ha
  simpa using hag a ha

/-! Facts about the role iteration. -/

theorem rsb_eq_none_iff (q : ℚ) (tiers : List Tier) (roles : List String) :
    roleSpecificBest q tiers roles = none ↔
      ∀ r ∈ roles, bestTier q (roleTiers tiers r) = none := by
  induction roles with
  | nil => simp [roleSpecificBest]
  | cons r rs ih =>
    cases hb : bestTier q (roleTiers tiers r) with
    | none => simp [roleSpecificBest, hb, ih]
    | some u => simp [roleSpecificBest, hb]

theorem rsb_some_spec {q : ℚ} {tiers : List Tier} {roles : List String}
    {u : Tier} (h : roleSpecificBest q tiers roles = some u) :
    ∃ r ∈ roles, bestTier q (roleTiers tiers r) = some u := by
  induction roles with
  | nil => simp [roleSpecificBest] at h
  | cons r rs ih =>
    cases hb : bestTier q (roleTiers tiers r) with
    | none =>
      simp only [roleSpecificBest, hb] at h
      rcases ih h with ⟨r', hr', hb'⟩
      exact ⟨r', List.mem_cons_of_mem _ hr', hb'⟩
    | some w =>
      simp only [roleSpecificBest, hb] at h
      exact ⟨r, List.mem_cons_self _ _, by rw [hb, h]⟩

theorem rsb_isSome {q : ℚ} {tiers : List Tier} {roles : List String}
    (h : ∃ t ∈ tiers, t.CustomerRole ≠ "" ∧ t.CustomerRole ∈ roles ∧
      t.Quantity ≤ q) : ∃ u, roleSpecificBest q tiers roles = some u := by
  cases hb : roleSpecificBest q tiers roles with
  | some u => exact ⟨u, rfl⟩
  | none =>
    rcases h with ⟨t, ht, hne, hrole, htq⟩
    have hall := (rsb_eq_none_iff q tiers roles).mp hb t.CustomerRole hrole
    have hmem : t ∈ roleTiers tiers t.CustomerRole :=
      mem_roleTiers.mpr ⟨ht, hne, rfl⟩
    exact absurd htq (not_le.mpr ((bestTier_eq_none_iff _ _).mp hall t hmem))

/-- C1: for every quantity q and every list of role-agnostic tiers
(every entry has an empty CustomerRole), FindTier returns a qualifying
tier of the list whose Quantity is greatest among the tiers with
Quantity at most q — equality qualifies — and returns none when q is
strictly below every Quantity, which covers the empty list. -/
theorem findTier_role_agnostic_spec (q : ℚ) (tiers : List Tier)
    (roles : List String) (hag : ∀ t ∈ tiers, t.CustomerRole = "") :
    ((∃ t ∈ tiers, t.Quantity ≤ q) →
      ∃ t, FindTier q tiers roles = some t ∧ t ∈ tiers ∧ t.Quantity ≤ q ∧
        ∀ u ∈ tiers, u.Quantity ≤ q → u.Quantity ≤ t.Quantity) ∧
    ((∀ t ∈ tiers, q < t.Quantity) → FindTier q tiers roles = none) := by
  have hrsb : roleSpecificBest q tiers roles = none := by
    apply (rsb_eq_none_iff q tiers roles).mpr
    intro r _
    rw [roleTiers_of_agnostic hag r]
    rfl
  have hfind : FindTier q tiers roles = bestTier q tiers := by
    rw [FindTier, hrsb, agnosticTiers_of_agnostic hag]
  constructor
  · intro hq
    rcases bestTier_isSome hq with ⟨u, hu⟩
    rcases bestTier_mem_le hu with ⟨hm, hle⟩
    exact ⟨u, hfind ▸ hu, hm, hle, bestTier_max hu⟩
  · intro hq
    rw [hfind]
    exact (bestTier_eq_none_iff q tiers).mpr hq

/-- Witness for C1 at quantity 100 and at quantity 0 against the tier
list of the spec example. -/
theorem findTier_role_agnostic_spec_witness :
    (∃ t, FindTier 100 [Tier.mk 1 5 "", Tier.mk 50 4 "", Tier.mk 250 3 ""]
        [] = some t ∧
      t ∈ [Tier.mk 1 5 "", Tier.mk 50 4 "", Tier.mk 250 3 ""] ∧
      t.Quantity ≤ 100 ∧
      ∀ u ∈ [Tier.mk 1 5 "", Tier.mk 50 4 "", Tier.mk 250 3 ""],
        u.Quantity ≤ 100 → u.Quantity ≤ t.Quantity) ∧
    FindTier 0 [Tier.mk 1 5 "", Tier.mk 50 4 "", Tier.mk 250 3 ""] [] =
      none :=
  ⟨(findTier_role_agnostic_spec 100
      [Tier.mk 1 5 "", Tier.mk 50 4 "", Tier.mk 250 3 ""] []
      (by decide)).1 (by decide),
   (findTier_role_agnostic_spec 0
      [Tier.mk 1 5 "", Tier.mk 50 4 "", Tier.mk 250 3 ""] []
      (by decide)).2 (by decide)⟩

/-- C2: whenever some role-specific tier qualifies — its CustomerRole
is non-empty, appears in the supplied roles, and its Quantity is at
most q — FindTier returns a role-specific qualifying tier, never a
role-agnostic one. -/
theorem findTier_role_specific_priority (q : ℚ) (tiers : List Tier)
    (roles : List String)
    (h : ∃ t ∈ tiers, t.CustomerRole ≠ "" ∧ t.CustomerRole ∈ roles ∧
      t.Quantity ≤ q) :
    ∃ t, FindTier q tiers roles = some t ∧ t ∈ tiers ∧
      t.CustomerRole ≠ "" ∧ t.CustomerRole ∈ roles ∧ t.Quantity ≤ q := by
  rcases rsb_isSome h with ⟨u, hu⟩
  rcases rsb_some_spec hu with ⟨r, hr, hb⟩
  rcases bestTier_mem_le hb with ⟨hm, hle⟩
  rcases mem_roleTiers.mp hm with ⟨hmem, hne, hrole⟩
  refine ⟨u, ?_, hmem, hne, hrole ▸ hr, hle⟩
  rw [FindTier, hu]

/-- Witness for C2: a VIP tier qualifies at quantity 60 and wins over
the role-agnostic tier of quantity 50, matching the spec example. -/
theorem findTier_role_specific_priority_witness :
    ∃ t, FindTier 60
        [Tier.mk 50 8 "Reg", Tier.mk 50 6 "VIP", Tier.mk 50 6 ""]
        ["VIP"] = some t ∧
      t ∈ [Tier.mk 50 8 "Reg", Tier.mk 50 6 "VIP", Tier.mk 50 6 ""] ∧
      t.CustomerRole ≠ "" ∧ t.CustomerRole ∈ ["VIP"] ∧ t.Quantity ≤ 60 :=
  findTier_role_specific_priority 60
    [Tier.mk 50 8 "Reg", Tier.mk 50 6 "VIP", Tier.mk 50 6 ""] ["VIP"]
    ⟨Tier.mk 50 6 "VIP", by decide, by decide, by decide, by decide⟩

theorem rsb_first_role (q : ℚ) (tiers : List Tier) (r : String)
    (post : List String) :
    ∀ pre : List String,
      (∀ r' ∈ pre, ∀ t ∈ tiers, t.CustomerRole = r' →
        t.CustomerRole ≠ "" → q < t.Quantity) →
      (∃ t ∈ tiers, t.CustomerRole = r ∧ t.CustomerRole ≠ "" ∧
        t.Quantity ≤ q) →
      ∃ u, roleSpecificBest q tiers (pre ++ r :: post) = some u ∧
        bestTier q (roleTiers tiers r) = some u := by
  intro pre
  induction pre with
  | nil =>
    intro _ hr
    rcases hr with ⟨t, ht, hrole, hne, htq⟩
    have hmem : t ∈ roleTiers tiers r :=
      mem_roleTiers.mpr ⟨ht, hne, hrole⟩
    rcases bestTier_isSome ⟨t, hmem, htq⟩ with ⟨u, hu⟩
    refine ⟨u, ?_, hu⟩
    simp [roleSpecificBest, hu]
  | cons r' pre' ih =>
    intro hpre hr
    have hnone : bestTier q (roleTiers tiers r') = none := by
      apply (bestTier_eq_none_iff _ _).mpr
      intro t ht
      rcases mem_roleTiers.mp ht with ⟨hmem, hne, hrole⟩
      exact hpre r' (List.mem_cons_self _ _) t hmem hrole hne
    have step : roleSpecificBest q tiers ((r' :: pre') ++ r :: post) =
        roleSpecificBest q tiers (pre' ++ r :: post) := by
      simp [roleSpecificBest, hnone]
    rcases ih (fun r'' h'' => hpre r'' (List.mem_cons_of_mem _ h'')) hr
      with ⟨u, hu, hb⟩
    exact ⟨u, step ▸ hu, hb⟩

/-- C3: with roles iterated in caller order, if no tier qualifies under
any role listed before r, while some tier with CustomerRole r
qualifies, then FindTier returns a tier of role r that is best within
that role — the first role in caller order that yields a qualifying
tier determines the result. -/
theorem findTier_first_role_wins (q : ℚ) (tiers : List Tier)
    (pre post : List String) (r : String)
    (hpre : ∀ r' ∈ pre, ∀ t ∈ tiers, t.CustomerRole = r' →
      t.CustomerRole ≠ "" → q < t.Quantity)
    (hr : ∃ t ∈ tiers, t.CustomerRole = r ∧ t.CustomerRole ≠ "" ∧
      t.Quantity ≤ q) :
    ∃ t, FindTier q tiers (pre ++ r :: post) = some t ∧ t ∈ tiers ∧
      t.CustomerRole = r ∧ t.Quantity ≤ q ∧
      ∀ u ∈ tiers, u.CustomerRole = r → u.Quantity ≤ q →
        u.Quantity ≤ t.Quantity := by
  rcases rsb_first_role q tiers r post pre hpre hr with ⟨u, hu, hb⟩
  rcases bestTier_mem_le hb with ⟨hm, hle⟩
  rcases mem_roleTiers.mp hm with ⟨hmem, hne, hrole⟩
  refine ⟨u, ?_, hmem, hrole, hle, ?_⟩
  · rw [FindTier, hu]
  · intro x hx hxrole hxq
    rcases hr with ⟨t0, _, hrole0, hne0, _⟩
    have hxne : x.CustomerRole ≠ "" := by
      rw [hxrole]
      exact hrole0 ▸ hne0
    exact bestTier_max hb x (mem_roleTiers.mpr ⟨hx, hxne, hxrole⟩) hxq

/-- Witness for C3: role Wholesale precedes role VIP in the caller
order; no Wholesale tier qualifies at quantity 60, one VIP tier does,
so the VIP tier is returned. -/
theorem findTier_first_role_wins_witness :
    ∃ t, FindTier 60
        [Tier.mk 100 5 "Wholesale", Tier.mk 50 6 "VIP", Tier.mk 10 9 ""]
        (["Wholesale"] ++ "VIP" :: []) = some t ∧
      t ∈ [Tier.mk 100 5 "Wholesale", Tier.mk 50 6 "VIP",
        Tier.mk 10 9 ""] ∧
      t.CustomerRole = "VIP" ∧ t.Quantity ≤ 60 ∧
      ∀ u ∈ [Tier.mk 100 5 "Wholesale", Tier.mk 50 6 "VIP",
        Tier.mk 10 9 ""], u.CustomerRole = "VIP" → u.Quantity ≤ 60 →
        u.Quantity ≤ t.Quantity :=
  findTier_first_role_wins 60
    [Tier.mk 100 5 "Wholesale", Tier.mk 50 6 "VIP", Tier.mk 10 9 ""]
    ["Wholesale"] [] "VIP" (by decide)
    ⟨Tier.mk 50 6 "VIP", by decide, by decide, by decide, by decide⟩

/-! Facts about the sort and the duplicate removal. -/

theorem sortTiers_sorted (tiers : List Tier) :
    List.Sorted tierLE (sortTiers tiers) :=
  List.sorted_insertionSort tierLE tiers

theorem sortTiers_perm (tiers : List Tier) : (sortTiers tiers).Perm tiers :=
  List.perm_insertionSort tierLE tiers

theorem dedupFrom_sublist (l : List Tier) :
    ∀ a, (dedupFrom a l).Sublist l := by
  induction l with
  | nil => intro a; simp [dedupFrom]
  | cons b rest ih =>
    intro a
    by_cases h : a.Quantity = b.Quantity
    · simp only [dedupFrom, if_pos h]
      exact (ih a).trans (List.sublist_cons_self b rest)
    · simp only [dedupFrom, if_neg h]
      exact List.Sublist.cons₂ b (ih b)

theorem dedupTiers_sublist (l : List Tier) : (dedupTiers l).Sublist l := by
  cases l with
  | nil => simp [dedupTiers]
  | cons a rest => exact List.Sublist.cons₂ a (dedupFrom_sublist rest a)

theorem dedupFrom_quantity_cover (l : List Tier) :
    ∀ a, ∀ x ∈ l, x.Quantity = a.Quantity ∨
      ∃ y ∈ dedupFrom a l, y.Quantity = x.Quantity := by
  induction l with
  | nil => simp
  | cons b rest ih =>
    intro a x hx
    by_cases h : a.Quantity = b.Quantity
    · simp only [dedupFrom, if_pos h]
      rcases List.mem_cons.mp hx with hx | hx
      · exact Or.inl (by rw [hx, h])
      · exact ih a x hx
    · simp only [dedupFrom, if_neg h]
      rcases List.mem_cons.mp hx with hx | hx
      · exact Or.inr ⟨b, List.mem_cons_self _ _, by rw [hx]⟩
      · rcases ih b x hx with hq | ⟨y, hy, hyq⟩
        · exact Or.inr ⟨b, List.mem_cons_self _ _, hq.symm⟩
        · exact Or.inr ⟨y, List.mem_cons_of_mem _ hy, hyq⟩

theorem dedupTiers_quantity_cover (l : List Tier) :
    ∀ x ∈ l, ∃ y ∈ dedupTiers l, y.Quantity = x.Quantity := by
  cases l with
  | nil => simp
  | cons a rest =>
    intro x hx
    rcases List.mem_cons.mp hx with hx | hx
    · exact ⟨a, List.mem_cons_self _ _, by rw [hx]⟩
    · rcases dedupFrom_quantity_cover rest a x hx with hq | ⟨y, hy, hyq⟩
      · exact ⟨a, List.mem_cons_self _ _, hq.symm⟩
      · exact ⟨y, List.mem_cons_of_mem _ hy, hyq⟩

theorem dedupFrom_chain (l : List Tier) :
    ∀ a, List.Sorted tierLE (a :: l) →
      List.Chain' tierLT (a :: dedupFrom a l) := by
  induction l with
  | nil => intro a _; simp [dedupFrom]
  | cons b rest ih =>
    intro a hs
    by_cases h : a.Quantity = b.Quantity
    · simp only [dedupFrom, if_pos h]
      apply ih a
      exact List.Pairwise.sublist
        (List.Sublist.cons₂ a (List.sublist_cons_self b rest)) hs
    · simp only [dedupFrom, if_neg h]
      rw [List.chain'_cons]
      refine ⟨?_, ih b hs.of_cons⟩
      have hle : tierLE a b :=
        List.rel_of_pairwise_cons hs (List.mem_cons_self b rest)
      exact (lt_of_le_of_ne hle h : a.Quantity < b.Quantity)

theorem dedupTiers_chain (l : List Tier) (hs : List.Sorted tierLE l) :
    List.Chain' tierLT (dedupTiers l) := by
  cases l with
  | nil => simp [dedupTiers]
  | cons a rest => exact dedupFrom_chain rest a hs

theorem dedupSort_pairwise (tiers : List Tier) :
    List.Pairwise tierLT (dedupTiers (sortTiers tiers)) :=
  List.chain'_iff_pairwise.mp (dedupTiers_chain _ (sortTiers_sorted tiers))

theorem mem_tiers_of_mem_dedupSort {tiers : List Tier} {t : Tier}
    (h : t ∈ dedupTiers (sortTiers tiers)) : t ∈ tiers :=
  (sortTiers_perm tiers).mem_iff.mp ((dedupTiers_sublist _).subset h)

/-! The interpolation walk on a strictly sorted list. -/

theorem interp_le_head (q : ℚ) (a : Tier) (l : List Tier)
    (h : q ≤ a.Quantity) :
    interpolateSorted q (a :: l) = some a.Price := by
  cases l with
  | nil => rfl
  | cons b rest =>
    simp only [interpolateSorted]
    rw [if_pos h]

theorem pairwise_le_getLast (l : List Tier) :
    List.Pairwise tierLT l →
      ∀ x ∈ l, ∃ y, l.getLast? = some y ∧ x.Quantity ≤ y.Quantity := by
  induction l with
  | nil => simp
  | cons a rest ih =>
    intro hs x hx
    cases rest with
    | nil =>
      have hxa : x = a := List.mem_singleton.mp hx
      exact ⟨a, rfl, by rw [hxa]⟩
    | cons b rest' =>
      rw [List.getLast?_cons_cons]
      rcases List.mem_cons.mp hx with hx | hx
      · rcases ih hs.of_cons b (List.mem_cons_self _ _) with ⟨y, hy, hby⟩
        have hab : a.Quantity < b.Quantity :=
          List.rel_of_pairwise_cons hs (List.mem_cons_self _ _)
        exact ⟨y, hy, by rw [hx]; exact le_trans (le_of_lt hab) hby⟩
      · exact ih hs.of_cons x hx

theorem interp_ge_last (q : ℚ) (l : List Tier)
    (h : ∀ t ∈ l, t.Quantity ≤ q) (hs : List.Pairwise tierLT l) :
    interpolateSorted q l = l.getLast?.map (fun t => t.Price) := by
  induction l with
  | nil => rfl
  | cons a rest ih =>
    cases rest with
    | nil => rfl
    | cons b rest' =>
      have hab : a.Quantity < b.Quantity :=
        List.rel_of_pairwise_cons hs (List.mem_cons_self _ _)
      have hbq : b.Quantity ≤ q :=
        h b (List.mem_cons_of_mem _ (List.mem_cons_self _ _))
      have h1 : ¬q ≤ a.Quantity := not_le.mpr (lt_of_lt_of_le hab hbq)
      have h2 : ¬q < b.Quantity := not_lt.mpr hbq
      rw [List.getLast?_cons_cons]
      simp only [interpolateSorted]
      rw [if_neg h1, if_neg h2]
      exact ih (fun t ht => h t (List.mem_cons_of_mem _ ht)) hs.of_cons

theorem interp_bracket (q : ℚ) (lo hi : Tier) (v : List Tier)
    (hlo : lo.Quantity ≤ q) (hhi : q < hi.Quantity) :
    ∀ u : List Tier, List.Pairwise tierLT (u ++ lo :: hi :: v) →
      interpolateSorted q (u ++ lo :: hi :: v) =
        some (lo.Price + (q - lo.Quantity) / (hi.Quantity - lo.Quantity) *
          (hi.Price - lo.Price)) := by
  intro u
  induction u with
  | nil =>
    intro _
    simp only [List.nil_append, interpolateSorted]
    by_cases h : q ≤ lo.Quantity
    · have heq : q = lo.Quantity := le_antisymm h hlo
      rw [if_pos h, heq]
      simp
    · rw [if_neg h, if_pos hhi]
  | cons a u' ih =>
    intro hs
    have hlomem : lo ∈ u' ++ lo :: hi :: v := by simp
    have ha_lo : a.Quantity < lo.Quantity :=
      List.rel_of_pairwise_cons hs hlomem
    have h1 : ¬q ≤ a.Quantity := not_le.mpr (lt_of_lt_of_le ha_lo hlo)
    have htail := hs.of_cons
    cases u' with
    | nil =>
      have h2 : ¬q < lo.Quantity := not_lt.mpr hlo
      simp only [List.cons_append, List.nil_append, interpolateSorted]
      rw [if_neg h1, if_neg h2]
      simpa using ih htail
    | cons c u'' =>
      have hc_lo : c.Quantity < lo.Quantity :=
        List.rel_of_pairwise_cons htail (by simp)
      have h2 : ¬q < c.Quantity :=
        not_lt.mpr (le_of_lt (lt_of_lt_of_le hc_lo hlo))
      simp only [List.cons_append, interpolateSorted]
      rw [if_neg h1, if_neg h2]
      simpa using ih htail

theorem interp_mem (l : List Tier) (t : Tier)
    (hs : List.Pairwise tierLT l) (ht : t ∈ l) :
    interpolateSorted t.Quantity l = some t.Price := by
  rcases List.append_of_mem ht with ⟨u, w, rfl⟩
  cases w with
  | nil =>
    have hlast : (u ++ [t]).getLast? = some t := List.getLast?_concat u
    have hall : ∀ x ∈ u ++ [t], x.Quantity ≤ t.Quantity := by
      intro x hx
      rcases pairwise_le_getLast _ hs x hx with ⟨y, hy, hxy⟩
      rw [hlast] at hy
      cases hy
      exact hxy
    rw [interp_ge_last _ _ hall hs, hlast]
    rfl
  | cons hi w' =>
    have hsub : List.Pairwise tierLT (t :: hi :: w') :=
      List.Pairwise.sublist (List.sublist_append_right u _) hs
    have hthi : t.Quantity < hi.Quantity :=
      List.rel_of_pairwise_cons hsub (List.mem_cons_self _ _)
    rw [interp_bracket t.Quantity t hi w' (le_refl _) hthi u hs]
    simp

/-- C4: InterpolatePrice clamps and never extrapolates — for a
non-empty tier list, a quantity at most every tier quantity yields the
price of a minimal-quantity tier, a quantity at least every tier
quantity yields the price of a maximal-quantity tier, and a single-tier
list yields that tier's price at every quantity. -/
theorem interpolatePrice_clamps (q : ℚ) (tiers : List Tier)
    (hne : tiers ≠ []) :
    ((∀ t ∈ tiers, q ≤ t.Quantity) →
      ∃ t ∈ tiers, (∀ u ∈ tiers, t.Quantity ≤ u.Quantity) ∧
        InterpolatePrice q tiers = some t.Price) ∧
    ((∀ t ∈ tiers, t.Quantity ≤ q) →
      ∃ t ∈ tiers, (∀ u ∈ tiers, u.Quantity ≤ t.Quantity) ∧
        InterpolatePrice q tiers = some t.Price) ∧
    (∀ (t : Tier) (q' : ℚ), InterpolatePrice q' [t] = some t.Price) := by
  obtain ⟨f, tl, hsort⟩ : ∃ f tl, sortTiers tiers = f :: tl := by
    cases hsp : sortTiers tiers with
    | nil =>
      have := (sortTiers_perm tiers).length_eq
      rw [hsp] at this
      exact absurd (List.length_eq_zero.mp this.symm) hne
    | cons f tl => exact ⟨f, tl, rfl⟩
  have hfmem : f ∈ tiers :=
    (sortTiers_perm tiers).mem_iff.mp (hsort ▸ List.mem_cons_self f tl)
  have hfmin : ∀ u ∈ tiers, f.Quantity ≤ u.Quantity := by
    intro u hu
    have hu' : u ∈ f :: tl := hsort ▸ (sortTiers_perm tiers).mem_iff.mpr hu
    rcases List.mem_cons.mp hu' with hu' | hu'
    · rw [hu']
    · have hrel : tierLE f u :=
        List.rel_of_pairwise_cons (hsort ▸ sortTiers_sorted tiers) hu'
      exact hrel
  refine ⟨?_, ?_, ?_⟩
  · intro hq
    refine ⟨f, hfmem, hfmin, ?_⟩
    rw [InterpolatePrice, hsort]
    exact interp_le_head q f (dedupFrom f tl) (hq f hfmem)
  · intro hq
    have hs' := dedupSort_pairwise tiers
    have hall : ∀ t ∈ dedupTiers (sortTiers tiers), t.Quantity ≤ q :=
      fun t ht => hq t (mem_tiers_of_mem_dedupSort ht)
    have hlast : ∃ y, (dedupTiers (sortTiers tiers)).getLast? = some y := by
      have hmem : f ∈ dedupTiers (sortTiers tiers) := by
        rw [hsort]
        exact List.mem_cons_self _ _
      rcases pairwise_le_getLast _ hs' f hmem with ⟨y, hy, _⟩
      exact ⟨y, hy⟩
    rcases hlast with ⟨y, hy⟩
    have hymem : y ∈ tiers :=
      mem_tiers_of_mem_dedupSort (List.mem_of_mem_getLast? hy)
    refine ⟨y, hymem, ?_, ?_⟩
    · intro u hu
      have hu' : u ∈ sortTiers tiers := (sortTiers_perm tiers).mem_iff.mpr hu
      rcases dedupTiers_quantity_cover _ u hu' with ⟨z, hz, hzq⟩
      rcases pairwise_le_getLast _ hs' z hz with ⟨y', hy', hzy⟩
      rw [hy] at hy'
      cases hy'
      rw [← hzq]
      exact hzy
    · rw [InterpolatePrice, interp_ge_last q _ hall hs', hy]
      rfl
  · intro t q'
    rfl

/-- Witness for C4: below-range and above-range quantities against a
two-tier list, and a single-tier list at an arbitrary quantity. -/
theorem interpolatePrice_clamps_witness :
    (∃ t ∈ [Tier.mk 1 5 "", Tier.mk 50 17 ""],
      (∀ u ∈ [Tier.mk 1 5 "", Tier.mk 50 17 ""],
        t.Quantity ≤ u.Quantity) ∧
      InterpolatePrice 0 [Tier.mk 1 5 "", Tier.mk 50 17 ""] =
        some t.Price) ∧
    (∃ t ∈ [Tier.mk 1 5 "", Tier.mk 50 17 ""],
      (∀ u ∈ [Tier.mk 1 5 "", Tier.mk 50 17 ""],
        u.Quantity ≤ t.Quantity) ∧
      InterpolatePrice 100 [Tier.mk 1 5 "", Tier.mk 50 17 ""] =
        some t.Price) :=
  ⟨(interpolatePrice_clamps 0 [Tier.mk 1 5 "", Tier.mk 50 17 ""]
      (by decide)).1 (by decide),
   (interpolatePrice_clamps 100 [Tier.mk 1 5 "", Tier.mk 50 17 ""]
      (by decide)).2.1 (by decide)⟩

/-- C5: for a quantity lying in the half-open interval of a bracketing
pair of consecutive breakpoints of the sorted de-duplicated tier list,
InterpolatePrice returns the linear interpolation between the pair; in
particular the spec example at quantity 25 evaluates to the documented
expression. -/
theorem interpolatePrice_interior (q : ℚ) (tiers u v : List Tier)
    (lo hi : Tier)
    (hdec : dedupTiers (sortTiers tiers) = u ++ lo :: hi :: v)
    (hlo : lo.Quantity ≤ q) (hhi : q < hi.Quantity) :
    InterpolatePrice q tiers =
      some (lo.Price + (q - lo.Quantity) / (hi.Quantity - lo.Quantity) *
        (hi.Price - lo.Price)) ∧
    InterpolatePrice 25
      [Tier.mk 1 5 "", Tier.mk 50 17 "", Tier.mk 250 60 ""] =
      some (5 + (25 - 1) / (50 - 1) * (17 - 5)) := by
  constructor
  · have hs := dedupSort_pairwise tiers
    rw [hdec] at hs
    rw [InterpolatePrice, hdec]
    exact interp_bracket q lo hi v hlo hhi u hs
  · norm_num [InterpolatePrice, sortTiers, dedupTiers, dedupFrom,
      interpolateSorted, tierLE, List.insertionSort, List.orderedInsert]

/-- Witness for C5 at the spec example: quantity 25 bracketed by the
breakpoints 1 and 50. -/
theorem interpolatePrice_interior_witness :
    InterpolatePrice 25
      [Tier.mk 1 5 "", Tier.mk 50 17 "", Tier.mk 250 60 ""] =
      some ((5 : ℚ) + (25 - 1) / (50 - 1) * (17 - 5)) ∧
    InterpolatePrice 25
      [Tier.mk 1 5 "", Tier.mk 50 17 "", Tier.mk 250 60 ""] =
      some (5 + (25 - 1) / (50 - 1) * (17 - 5)) :=
  interpolatePrice_interior 25
    [Tier.mk 1 5 "", Tier.mk 50 17 "", Tier.mk 250 60 ""]
    [] [Tier.mk 250 60 ""] (Tier.mk 1 5 "") (Tier.mk 50 17 "")
    (by decide) (by decide) (by decide)

theorem dedupFrom_of_distinct (l : List Tier) :
    ∀ a, (∀ x ∈ l, a.Quantity ≠ x.Quantity) →
      l.Pairwise (fun u v => u.Quantity ≠ v.Quantity) →
      dedupFrom a l = l := by
  induction l with
  | nil => intro a _ _; rfl
  | cons b rest ih =>
    intro a ha hp
    simp only [dedupFrom, if_neg (ha b (List.mem_cons_self _ _))]
    congr 1
    exact ih b (fun x hx => List.rel_of_pairwise_cons hp hx) hp.of_cons

theorem dedupTiers_of_distinct (l : List Tier)
    (hp : l.Pairwise (fun u v => u.Quantity ≠ v.Quantity)) :
    dedupTiers l = l := by
  cases l with
  | nil => rfl
  | cons a rest =>
    show a :: dedupFrom a rest = a :: rest
    congr 1
    exact dedupFrom_of_distinct rest a
      (fun x hx => List.rel_of_pairwise_cons hp hx) hp.of_cons

/-- C6 counterexample: with two tiers sharing Quantity 1, the
de-duplication that keeps the first occurrence makes the boundary value
of the second tier unreachable, so InterpolatePrice at its Quantity
does not return its Price. -/
theorem interpolatePrice_boundary_cex :
    Tier.mk 1 7 "" ∈ [Tier.mk 1 5 "", Tier.mk 1 7 ""] ∧
    InterpolatePrice (Tier.mk 1 7 "").Quantity
      [Tier.mk 1 5 "", Tier.mk 1 7 ""] ≠
      some (Tier.mk 1 7 "").Price := by
  constructor
  · decide
  · decide

/-- C6 amended: InterpolatePrice is continuous at tier boundaries for
every tier list whose entries have pairwise-distinct Quantities — at
each tier's Quantity it returns that tier's Price. -/
theorem interpolatePrice_boundary (tiers : List Tier)
    (hd : tiers.Pairwise (fun a b => a.Quantity ≠ b.Quantity))
    (t : Tier) (ht : t ∈ tiers) :
    InterpolatePrice t.Quantity tiers = some t.Price := by
  have hperm := sortTiers_perm tiers
  have hd' : (sortTiers tiers).Pairwise
      (fun a b => a.Quantity ≠ b.Quantity) :=
    (hperm.pairwise_iff (fun h => h.symm)).mpr hd
  have hded : dedupTiers (sortTiers tiers) = sortTiers tiers :=
    dedupTiers_of_distinct _ hd'
  have hs : List.Pairwise tierLT (sortTiers tiers) := by
    have := dedupSort_pairwise tiers
    rwa [hded] at this
  rw [InterpolatePrice, hded]
  exact interp_mem _ t hs (hperm.mem_iff.mpr ht)

/-- Witness for the amended C6 at the middle breakpoint of the
three-tier list used in the documentation. -/
theorem interpolatePrice_boundary_witness :
    InterpolatePrice 50
      [Tier.mk 1 5 "", Tier.mk 50 17 "", Tier.mk 250 60 ""] = some 17 :=
  interpolatePrice_boundary
    [Tier.mk 1 5 "", Tier.mk 50 17 "", Tier.mk 250 60 ""]
    (by decide) (Tier.mk 50 17 "") (by decide)

theorem interpChecked_eq (q : ℚ) (l : List Tier) :
    interpolateSortedChecked q l = some (interpolateSorted q l) := by
  induction l with
  | nil => rfl
  | cons a rest ih =>
    cases rest with
    | nil => rfl
    | cons b rest' =>
      by_cases h1 : q ≤ a.Quantity
      · simp only [interpolateSortedChecked, interpolateSorted]
        rw [if_pos h1, if_pos h1]
      · by_cases h2 : q < b.Quantity
        · have hab : a.Quantity < b.Quantity := lt_trans (not_le.mp h1) h2
          have hden : ¬b.Quantity - a.Quantity = 0 :=
            sub_ne_zero_of_ne (ne_of_gt hab)
          simp only [interpolateSortedChecked, interpolateSorted]
          rw [if_neg h1, if_neg h1, if_pos h2, if_pos h2, if_neg hden]
        · simp only [interpolateSortedChecked, interpolateSorted]
          rw [if_neg h1, if_neg h1, if_neg h2, if_neg h2]
          exact ih

/-- C7: the sorted de-duplicated tier list is strictly increasing in
Quantity, so every bracketing pair has a positive quantity span, and
the interpolation walk with an explicit division-by-zero branch never
takes that branch — it agrees with InterpolatePrice on every input. -/
theorem interpolatePrice_no_div_zero (q : ℚ) (tiers : List Tier) :
    List.Chain' tierLT (dedupTiers (sortTiers tiers)) ∧
    interpolateSortedChecked q (dedupTiers (sortTiers tiers)) =
      some (InterpolatePrice q tiers) :=
  ⟨dedupTiers_chain _ (sortTiers_sorted tiers), interpChecked_eq q _⟩

/-! Facts about the fail-fast validation layer. -/

theorem toTier_isSome_eq (t : RawTier) : (toTier t).isSome = validTier t := by
  rcases t with ⟨q, p, r⟩
  cases q <;> cases p <;> rfl

theorem validateTiers_ok (ts : List RawTier)
    (h : ∀ t ∈ ts, validTier t = true) :
    ∃ l, validateTiers ts = .ok l := by
  induction ts with
  | nil => exact ⟨[], rfl⟩
  | cons t rest ih =>
    rcases ih (fun x hx => h x (List.mem_cons_of_mem _ hx)) with ⟨l, hl⟩
    have hv : (toTier t).isSome = true := by
      rw [toTier_isSome_eq]
      exact h t (List.mem_cons_self _ _)
    rcases Option.isSome_iff_exists.mp hv with ⟨v, hvt⟩
    exact ⟨v :: l, by simp only [validateTiers, hvt, hl]⟩

theorem validateTiers_error (ts : List RawTier)
    (h : ∃ t ∈ ts, ¬validTier t = true) :
    ∃ m, validateTiers ts = .error (.InvalidArgument m) := by
  induction ts with
  | nil => simp at h
  | cons t rest ih =>
    by_cases hv : validTier t = true
    · have hr : ∃ x ∈ rest, ¬validTier x = true := by
        rcases h with ⟨x, hx, hxv⟩
        rcases List.mem_cons.mp hx with hx | hx
        · exact absurd (hx ▸ hv) hxv
        · exact ⟨x, hx, hxv⟩
      rcases ih hr with ⟨m, hm⟩
      have hvs : (toTier t).isSome = true := by rw [toTier_isSome_eq]; exact hv
      rcases Option.isSome_iff_exists.mp hvs with ⟨v, hvt⟩
      exact ⟨m, by simp only [validateTiers, hvt, hm]⟩
    · have hnone : toTier t = none := by
        cases htt : toTier t with
        | none => rfl
        | some v =>
          have : (toTier t).isSome = true := by rw [htt]; rfl
          rw [toTier_isSome_eq] at this
          exact absurd this hv
      exact ⟨"tier entry is missing its Quantity or Price field",
        by simp only [validateTiers, hnone]⟩

theorem validateTiers_cons_ne_nil {t : RawTier} {rest : List RawTier}
    {l : List Tier} (h : validateTiers (t :: rest) = .ok l) : l ≠ [] := by
  cases htt : toTier t with
  | none =>
    simp only [validateTiers, htt] at h
    exact Except.noConfusion h
  | some v =>
    cases hr : validateTiers rest with
    | error e =>
      simp only [validateTiers, htt, hr] at h
      exact Except.noConfusion h
    | ok l' =>
      simp only [validateTiers, htt, hr, Except.ok.injEq] at h
      rw [← h]
      simp

theorem sortTiers_cons_of_ne_nil {l : List Tier} (h : l ≠ []) :
    ∃ f tl, sortTiers l = f :: tl := by
  cases hsp : sortTiers l with
  | nil =>
    have hlen := (sortTiers_perm l).length_eq
    rw [hsp] at hlen
    exact absurd (List.length_eq_zero.mp hlen.symm) h
  | cons f tl => exact ⟨f, tl, rfl⟩

theorem interp_cons_isSome (q : ℚ) (l : List Tier) :
    ∀ a : Tier, ∃ p, interpolateSorted q (a :: l) = some p := by
  induction l with
  | nil => exact fun a => ⟨a.Price, rfl⟩
  | cons b rest ih =>
    intro a
    by_cases h1 : q ≤ a.Quantity
    · exact ⟨a.Price, by simp only [interpolateSorted]; rw [if_pos h1]⟩
    · by_cases h2 : q < b.Quantity
      · exact ⟨_, by simp only [interpolateSorted]; rw [if_neg h1, if_pos h2]⟩
      · rcases ih b with ⟨p, hp⟩
        exact ⟨p, by
          simp only [interpolateSorted]
          rw [if_neg h1, if_neg h2]
          exact hp⟩

theorem interpolatePrice_isSome (q : ℚ) (l : List Tier) (h : l ≠ []) :
    ∃ p, InterpolatePrice q l = some p := by
  rcases sortTiers_cons_of_ne_nil h with ⟨f, tl, hsort⟩
  rw [InterpolatePrice, hsort]
  exact interp_cons_isSome q (dedupFrom f tl) f

theorem validateValue_ok (v : RawAttributeValue)
    (h : validValue v = true) : ∃ w, validateValue v = .ok w := by
  have hall : ∀ t ∈ v.TierPriceAdjustments, validTier t = true :=
    List.all_eq_true.mp h
  rcases validateTiers_ok _ hall with ⟨l, hl⟩
  exact ⟨AttributeValue.mk v.Value v.Id v.PriceAdjustment
    v.WeightAdjustment v.LengthAdjustment v.WidthAdjustment
    v.HeightAdjustment v.PriceAdjustmentIsPercentage
    v.UseTierPriceAdjustment l, by simp only [validateValue, hl]⟩

theorem validateValue_error (v : RawAttributeValue)
    (h : ¬validValue v = true) :
    ∃ m, validateValue v = .error (.InvalidArgument m) := by
  have hbad : ∃ t ∈ v.TierPriceAdjustments, ¬validTier t = true := by
    by_contra hc
    push_neg at hc
    exact h (List.all_eq_true.mpr hc)
  rcases validateTiers_error _ hbad with ⟨m, hm⟩
  exact ⟨m, by simp only [validateValue, hm]⟩

theorem validateValues_ok (vs : List RawAttributeValue)
    (h : ∀ v ∈ vs, validValue v = true) :
    ∃ l, validateValues vs = .ok l := by
  induction vs with
  | nil => exact ⟨[], rfl⟩
  | cons v rest ih =>
    rcases ih (fun x hx => h x (List.mem_cons_of_mem _ hx)) with ⟨l, hl⟩
    rcases validateValue_ok v (h v (List.mem_cons_self _ _)) with ⟨w, hw⟩
    exact ⟨w :: l, by simp only [validateValues, hw, hl]⟩

theorem validateValues_error (vs : List RawAttributeValue)
    (h : ∃ v ∈ vs, ¬validValue v = true) :
    ∃ m, validateValues vs = .error (.InvalidArgument m) := by
  induction vs with
  | nil => simp at h
  | cons v rest ih =>
    by_cases hv : validValue v = true
    · have hr : ∃ x ∈ rest, ¬validValue x = true := by
        rcases h with ⟨x, hx, hxv⟩
        rcases List.mem_cons.mp hx with hx | hx
        · exact absurd (hx ▸ hv) hxv
        · exact ⟨x, hx, hxv⟩
      rcases ih hr with ⟨m, hm⟩
      rcases validateValue_ok v hv with ⟨w, hw⟩
      exact ⟨m, by simp only [validateValues, hw, hm]⟩
    · rcases validateValue_error v hv with ⟨m, hm⟩
      exact ⟨m, by simp only [validateValues, hm]⟩

theorem validateAttrs_ok (attrs : List RawAttribute)
    (h : ∀ a ∈ attrs, validAttr a = true) :
    ∃ l, validateAttrs attrs = .ok l := by
  induction attrs with
  | nil => exact ⟨[], rfl⟩
  | cons a rest ih =>
    rcases ih (fun x hx => h x (List.mem_cons_of_mem _ hx)) with ⟨l, hl⟩
    have hv : ∀ v ∈ a.Values, validValue v = true :=
      List.all_eq_true.mp (h a (List.mem_cons_self _ _))
    rcases validateValues_ok _ hv with ⟨vs, hvs⟩
    exact ⟨Attribute.mk a.Key a.Prompt a.IsRequired a.Value a.Id vs :: l,
      by simp only [validateAttrs, hvs, hl]⟩

theorem validateAttrs_error (attrs : List RawAttribute)
    (h : ∃ a ∈ attrs, ¬validAttr a = true) :
    ∃ m, validateAttrs attrs = .error (.InvalidArgument m) := by
  induction attrs with
  | nil => simp at h
  | cons a rest ih =>
    by_cases hv : validAttr a = true
    · have hr : ∃ x ∈ rest, ¬validAttr x = true := by
        rcases h with ⟨x, hx, hxv⟩
        rcases List.mem_cons.mp hx with hx | hx
        · exact absurd (hx ▸ hv) hxv
        · exact ⟨x, hx, hxv⟩
      rcases ih hr with ⟨m, hm⟩
      rcases validateValues_ok a.Values (List.all_eq_true.mp hv) with ⟨vs, hvs⟩
      exact ⟨m, by simp only [validateAttrs, hvs, hm]⟩
    · have hbad : ∃ v ∈ a.Values, ¬validValue v = true := by
        by_contra hc
        push_neg at hc
        exact hv (List.all_eq_true.mpr hc)
      rcases validateValues_error _ hbad with ⟨m, hm⟩
      exact ⟨m, by simp only [validateAttrs, hm]⟩

/-- C8: each of the three checked helpers fails fast with an
InvalidArgument error exactly on invalid input — a negative quantity
for all three, an empty tier list for InterpolatePrice, and a tier
entry missing its Quantity or Price field — and never errors on valid
input. -/
theorem checked_fail_fast :
    (∀ (q : ℚ) (ts : List RawTier) (roles : List String),
      isInvalidArg (checkedFindTier q ts roles) = true ↔
        (q < 0 ∨ ∃ t ∈ ts, ¬validTier t = true)) ∧
    (∀ (q : ℚ) (ts : List RawTier),
      isInvalidArg (checkedInterpolatePrice q ts) = true ↔
        (q < 0 ∨ ts = [] ∨ ∃ t ∈ ts, ¬validTier t = true)) ∧
    (∀ (q : ℚ) (roles : List String) (bp : ℚ) (attrs : List RawAttribute),
      isInvalidArg (checkedGetAttributePriceAdjustment q roles bp attrs) =
        true ↔ (q < 0 ∨ ∃ a ∈ attrs, ¬validAttr a = true)) := by
  refine ⟨fun q ts roles => ⟨?_, ?_⟩, fun q ts => ⟨?_, ?_⟩,
    fun q roles bp attrs => ⟨?_, ?_⟩⟩
  · intro h
    by_contra hc
    push_neg at hc
    rcases hc with ⟨hq, hgood⟩
    rcases validateTiers_ok ts hgood with ⟨l, hl⟩
    have hok : checkedFindTier q ts roles = .ok (FindTier q l roles) := by
      rw [checkedFindTier, if_neg (not_lt.mpr hq), hl]
    rw [hok] at h
    exact absurd h (by simp [isInvalidArg])
  · intro h
    rcases h with hq | hbad
    · rw [checkedFindTier, if_pos hq]; rfl
    · by_cases hq : q < 0
      · rw [checkedFindTier, if_pos hq]; rfl
      · rcases validateTiers_error ts hbad with ⟨m, hm⟩
        rw [checkedFindTier, if_neg hq, hm]; rfl
  · intro h
    by_contra hc
    push_neg at hc
    rcases hc with ⟨hq, hne, hgood⟩
    rcases validateTiers_ok ts hgood with ⟨l, hl⟩
    have hlne : l ≠ [] := by
      cases ts with
      | nil => exact absurd rfl hne
      | cons t rest => exact validateTiers_cons_ne_nil hl
    rcases interpolatePrice_isSome q l hlne with ⟨p, hp⟩
    have hok : checkedInterpolatePrice q ts = .ok p := by
      rw [checkedInterpolatePrice, if_neg (not_lt.mpr hq), hl]
      show (match InterpolatePrice q l with
        | some p => Except.ok p
        | none => Except.error
            (PricingError.InvalidArgument "empty tier list")) =
        Except.ok p
      rw [hp]
    rw [hok] at h
    exact absurd h (by simp [isInvalidArg])
  · intro h
    by_cases hq : q < 0
    · rw [checkedInterpolatePrice, if_pos hq]; rfl
    · rcases h with hq' | hts | hbad
      · exact absurd hq' hq
      · subst hts
        rw [checkedInterpolatePrice, if_neg hq]
        rfl
      · rcases validateTiers_error ts hbad with ⟨m, hm⟩
        rw [checkedInterpolatePrice, if_neg hq, hm]; rfl
  · intro h
    by_contra hc
    push_neg at hc
    rcases hc with ⟨hq, hgood⟩
    rcases validateAttrs_ok attrs hgood with ⟨l, hl⟩
    have hok : checkedGetAttributePriceAdjustment q roles bp attrs =
        .ok (GetAttributePriceAdjustment q roles bp l) := by
      rw [checkedGetAttributePriceAdjustment, if_neg (not_lt.mpr hq), hl]
    rw [hok] at h
    exact absurd h (by simp [isInvalidArg])
  · intro h
    rcases h with hq | hbad
    · rw [checkedGetAttributePriceAdjustment, if_pos hq]; rfl
    · by_cases hq : q < 0
      · rw [checkedGetAttributePriceAdjustment, if_pos hq]; rfl
      · rcases validateAttrs_error attrs hbad with ⟨m, hm⟩
        rw [checkedGetAttributePriceAdjustment, if_neg hq, hm]; rfl

/-- Witness for C8: a negative quantity makes checkedFindTier error, an
empty tier list makes checkedInterpolatePrice error, a malformed tier
entry makes checkedGetAttributePriceAdjustment error, and a valid call
does not error. -/
theorem checked_fail_fast_witness :
    isInvalidArg (checkedFindTier (-1) [] []) = true ∧
    isInvalidArg (checkedInterpolatePrice 5 []) = true ∧
    isInvalidArg (checkedGetAttributePriceAdjustment 5 [] 10
      [RawAttribute.mk "k" "" false "x" 0
        [RawAttributeValue.mk "x" "i" 0 0 0 0 0 false true
          [RawTier.mk none (some 3) ""]]]) = true ∧
    isInvalidArg (checkedFindTier 5 [RawTier.mk (some 1) (some 2) ""] []) =
      false :=
  ⟨(checked_fail_fast.1 (-1) [] []).mpr (Or.inl (by norm_num)),
   (checked_fail_fast.2.1 5 []).mpr (Or.inr (Or.inl rfl)),
   (checked_fail_fast.2.2 5 [] 10 _).mpr (Or.inr (by decide)),
   by decide⟩

/-- C9: for a selected AttributeValue resolved through the flat
(non-tiered) path, a percentage adjustment contributes
basePrice * (adjustment / 100) — so doubling the base price doubles the
contribution — while a non-percentage adjustment's contribution does
not depend on the base price at all. -/
theorem percentage_scales_flat_invariant (q : ℚ) (roles : List String)
    (bp bp' : ℚ) (a : Attribute) (v : AttributeValue)
    (hsel : selectedValue a = some v) :
    (v.UseTierPriceAdjustment = false →
      v.PriceAdjustmentIsPercentage = true →
      attrContribution q roles bp a = bp * (v.PriceAdjustment / 100) ∧
      attrContribution q roles (2 * bp) a =
        2 * attrContribution q roles bp a) ∧
    (v.PriceAdjustmentIsPercentage = false →
      attrContribution q roles bp' a = attrContribution q roles bp a) := by
  constructor
  · intro ht hp
    simp only [attrContribution, hsel, valueContribution, ht, hp]
    constructor
    · simp
    · simp only [Bool.false_eq_true, if_false, if_pos]
      ring
  · intro hp
    by_cases ht : v.UseTierPriceAdjustment = true
    · simp [attrContribution, hsel, valueContribution, ht]
    · simp [attrContribution, hsel, valueContribution, ht, hp]

/-- Witness for C9: a 50 percent adjustment on base price 10
contributes 5, and doubling the base price doubles it. -/
theorem percentage_scales_flat_invariant_witness :
    attrContribution 1 [] 10
      (Attribute.mk "k" "" false "x" 0
        [AttributeValue.mk "x" "i" 50 0 0 0 0 true false []]) =
      10 * (50 / 100) ∧
    attrContribution 1 [] (2 * 10)
      (Attribute.mk "k" "" false "x" 0
        [AttributeValue.mk "x" "i" 50 0 0 0 0 true false []]) =
      2 * attrContribution 1 [] 10
        (Attribute.mk "k" "" false "x" 0
          [AttributeValue.mk "x" "i" 50 0 0 0 0 true false []]) :=
  (percentage_scales_flat_invariant 1 [] 10 0
    (Attribute.mk "k" "" false "x" 0
      [AttributeValue.mk "x" "i" 50 0 0 0 0 true false []])
    (AttributeValue.mk "x" "i" 50 0 0 0 0 true false [])
    (by decide)).1 rfl rfl

/-- C10: GetAttributePriceAdjustment reads only the requested quantity,
the supplied roles (falling back to the ambient Customer roles when
omitted), and the ambient Item price and attribute collection — two
evaluations over states that agree on those components return the same
number, and omitting the roles equals passing the ambient Customer
roles explicitly. -/
theorem getAttr_ambient_deterministic (st st' : ScriptState) (q : ℚ)
    (roles : Option (List String))
    (hP : st.item.Price = st'.item.Price)
    (hA : st.item.Attributes = st'.item.Attributes)
    (hR : st.customer.CustomerRoles = st'.customer.CustomerRoles) :
    GetAttributePriceAdjustmentAmbient st q roles =
      GetAttributePriceAdjustmentAmbient st' q roles ∧
    GetAttributePriceAdjustmentAmbient st q none =
      GetAttributePriceAdjustmentAmbient st q
        (some st.customer.CustomerRoles) := by
  constructor
  · rw [GetAttributePriceAdjustmentAmbient,
      GetAttributePriceAdjustmentAmbient, hP, hA, hR]
  · rfl

/-- Witness for C10: two snapshots differing in customer email,
department, coupon, item quantity and old price — but agreeing on the
read components — produce the same adjustment. -/
theorem getAttr_ambient_deterministic_witness :
    GetAttributePriceAdjustmentAmbient
      (ScriptState.mk (ItemState.mk 10 12 3 [] ["VIP"])
        (CustomerState.mk "a@example.com" ["VIP"] "dep1" "code1"))
      5 none =
    GetAttributePriceAdjustmentAmbient
      (ScriptState.mk (ItemState.mk 10 99 7 [] ["Other"])
        (CustomerState.mk "b@example.com" ["VIP"] "dep2" "code2"))
      5 none ∧
    GetAttributePriceAdjustmentAmbient
      (ScriptState.mk (ItemState.mk 10 12 3 [] ["VIP"])
        (CustomerState.mk "a@example.com" ["VIP"] "dep1" "code1"))
      5 none =
    GetAttributePriceAdjustmentAmbient
      (ScriptState.mk (ItemState.mk 10 12 3 [] ["VIP"])
        (CustomerState.mk "a@example.com" ["VIP"] "dep1" "code1"))
      5 (some ["VIP"]) :=
  getAttr_ambient_deterministic
    (ScriptState.mk (ItemState.mk 10 12 3 [] ["VIP"])
      (CustomerState.mk "a@example.com" ["VIP"] "dep1" "code1"))
    (ScriptState.mk (ItemState.mk 10 99 7 [] ["Other"])
      (CustomerState.mk "b@example.com" ["VIP"] "dep2" "code2"))
    5 none rfl rfl rfl

end Pricing
